import Mathlib

/-!
A shallow embedding of `flagconf` (go.senan.xyz/flagconf)

This file embeds the Go package `flagconf` (source file `flagconf.go`, the
current revision) in Lean 4 and proves properties of the embedding.

The package augments Go's `flag` registry with two resolution passes:
`ParseEnvSet` (environment variables) and `ParseConfigSet` (a line-oriented
config file).  The embedding models:

* the Go `strings` operations the package uses (`ReplaceAll`, `Split`,
  `Cut`, `TrimSpace`, `IndexAny`, `ToUpper` restricted to ASCII),
* `os.Expand` together with its helpers `getShellName`,
  `isShellSpecialVar`, `isAlphaNum`,
* `path/filepath.Base` for the default environment prefix,
* the package's own helpers `splitEscape`, `envKeyForFlag`, `genEnvMap`,
  `getSetFlags`, and the two resolution passes themselves.

A `flag.Flag` is modelled by its name, the ordered history of successful
`Value.Set` calls (its abstract value state) and a validation function
describing which inputs its setter rejects; a `flag.FlagSet` by its name,
its flags in `VisitAll` order, and the names its `Visit` method reports as
explicitly set (Go's `FlagSet.actual`).  File I/O is abstracted by a
function from a path to the outcome of `os.Open` + `bufio.Scanner`.

Loops that advance their index by more than one per iteration
(`strings.Replace`, `strings.Split`, `os.Expand`) are translated with an
explicit skip counter so that every recursive call consumes exactly one
character; the skip counter mirrors the Go index jump.
-/

namespace Flagconf

/-! ## Character classes -/

/-- The function `unicode.IsSpace`, restricted to its ASCII/Latin-1 cases
`'\t' '\n' '\v' '\f' '\r' ' ' U+0085 U+00A0` (the inputs this program
meets are ASCII). -/
def isGoSpace (c : Char) : Bool :=
  c == ' ' || c == '\t' || c == '\n' || c == '\x0b' || c == '\x0c' || c == '\r' ||
    c == '\u0085' || c == ' '

/-- The function `os.Expand`'s helper `isShellSpecialVar`. -/
def isShellSpecialVar (c : Char) : Bool :=
  c == '*' || c == '#' || c == '$' || c == '@' || c == '!' || c == '?' || c == '-' ||
    ('0' ≤ c && c ≤ '9')

/-- The function `os.Expand`'s helper `isAlphaNum`. -/
def isAlphaNum (c : Char) : Bool :=
  c == '_' || ('0' ≤ c && c ≤ '9') || ('a' ≤ c && c ≤ 'z') || ('A' ≤ c && c ≤ 'Z')

/-! ## Go `strings` operations, over `List Char` -/

/-- The function `strings.ReplaceAll s pat rep` (i.e. `strings.Replace` with `n = -1`),
for a non-empty pattern.  `skip` counts characters of an already-matched
pattern occurrence still to be consumed (the Go loop advances its index by
`len(pat)` at a match). -/
def replaceAllAux (pat rep : List Char) : Nat → List Char → List Char
  | 0, [] => []
  | 0, c :: rest =>
    if pat ≠ [] ∧ pat.isPrefixOf (c :: rest) then
      rep ++ replaceAllAux pat rep (pat.length - 1) rest
    else
      c :: replaceAllAux pat rep 0 rest
  | _ + 1, [] => []
  | skip + 1, _ :: rest => replaceAllAux pat rep skip rest

/-- The function `strings.ReplaceAll`. -/
def replaceAll (s pat rep : List Char) : List Char :=
  replaceAllAux pat rep 0 s

/-- The function `strings.Split s sep` for a non-empty separator: `skip` as in
`replaceAllAux`. `Split("", sep) = [""]`. -/
def splitSepAux (sep : List Char) : Nat → List Char → List (List Char)
  | 0, [] => [[]]
  | 0, c :: rest =>
    if sep ≠ [] ∧ sep.isPrefixOf (c :: rest) then
      [] :: splitSepAux sep (sep.length - 1) rest
    else
      match splitSepAux sep 0 rest with
      | t :: ts => (c :: t) :: ts
      | [] => [[c]]
  | _ + 1, [] => [[]]
  | skip + 1, _ :: rest => splitSepAux sep skip rest

/-- The function `strings.Split`. -/
def splitSep (s sep : List Char) : List (List Char) :=
  splitSepAux sep 0 s

/-- The function `strings.Index`: position of the first occurrence of `pat` in `s`,
`none` when absent (Go returns `-1`). -/
def strIndex (pat : List Char) : List Char → Option Nat
  | [] => if pat.isPrefixOf ([] : List Char) then some 0 else none
  | c :: rest =>
    if pat.isPrefixOf (c :: rest) then some 0
    else (strIndex pat rest).map (· + 1)

/-- Both trimming passes of `strings.TrimSpace`: drop leading and trailing
`isGoSpace` characters. -/
def trimSpaceL (l : List Char) : List Char :=
  ((l.dropWhile isGoSpace).reverse.dropWhile isGoSpace).reverse

/-! ## Go `strings` operations, over `String` -/

/-- The function `strings.ReplaceAll` on strings. -/
def goReplaceAll (s pat rep : String) : String :=
  String.mk (replaceAll s.data pat.data rep.data)

/-- The function `strings.ToUpper`; ASCII case mapping (all inputs in this program are
ASCII flag and registry names). -/
def goToUpper (s : String) : String :=
  String.mk (s.data.map Char.toUpper)

/-- The function `strings.Split` on strings. -/
def goSplit (s sep : String) : List String :=
  (splitSep s.data sep.data).map String.mk

/-- The function `strings.Cut`: `some (before, after)` around the first occurrence of
`sep`, `none` when `sep` does not occur (Go's `ok = false`). -/
def goCut (s sep : String) : Option (String × String) :=
  match strIndex sep.data s.data with
  | some i => some (String.mk (s.data.take i), String.mk (s.data.drop (i + sep.data.length)))
  | none => none

/-- The function `strings.TrimSpace` on strings. -/
def goTrimSpace (s : String) : String :=
  String.mk (trimSpaceL s.data)

/-- The function `strings.Contains`. -/
def strContains (s pat : String) : Bool :=
  (strIndex pat.data s.data).isSome

/-- The function `strings.IndexAny(line, "\t ")`: position of the first tab or space. -/
def indexTabSpace (l : List Char) : Option Nat :=
  l.findIdx? (fun c => c == '\t' || c == ' ')

/-! ## `os.Expand` -/

/-- The function `os.Expand`'s helper `getShellName`: the variable name starting at the
character after a `$`, and the number of input characters it spans
(including braces).  An empty name with positive width is Go's "bad
substitution, eat the characters"; an empty name with width `0` leaves the
`$` untouched. -/
def getShellName (s : List Char) : List Char × Nat :=
  match s with
  | [] => ([], 0)
  | '{' :: rest =>
    match rest.findIdx? (fun c => c == '}') with
    | some i => if i = 0 then ([], 2) else (rest.take i, i + 2)
    | none => ([], 1)
  | c :: rest =>
    if isShellSpecialVar c then ([c], 1)
    else ((c :: rest).takeWhile isAlphaNum, ((c :: rest).takeWhile isAlphaNum).length)

/-- The scanning loop of `os.Expand`: `skip` consumes the characters of a
reference already handled (Go's `j += w`).  A substituted value is appended
to the output as-is — the recursion continues only on the remainder of the
input, so expanded output is never re-expanded. -/
def expandAux (m : String → String) : Nat → List Char → List Char
  | 0, [] => []
  | 0, c :: rest =>
    if c = '$' ∧ rest ≠ [] then
      let p := getShellName rest
      if p.1 = [] ∧ p.2 > 0 then expandAux m p.2 rest
      else if p.1 = [] then c :: expandAux m p.2 rest
      else (m (String.mk p.1)).data ++ expandAux m p.2 rest
    else c :: expandAux m 0 rest
  | _ + 1, [] => []
  | skip + 1, _ :: rest => expandAux m skip rest

/-- The function `os.Expand`. -/
def osExpand (s : String) (m : String → String) : String :=
  String.mk (expandAux m 0 s.data)

/-! ## `path/filepath.Base` (unix separator) -/

/-- The function `filepath.Base`: last element of the path after stripping trailing
slashes; `"."` for the empty path, `"/"` for an all-slash path. -/
def filepathBase (path : String) : String :=
  if path = "" then "."
  else
    let r := path.data.reverse.dropWhile (fun c => c == '/')
    let base := (r.takeWhile (fun c => c != '/')).reverse
    if base = [] then "/" else String.mk base

/-! ## The `flagconf` package -/

/-- The function `splitEscape str sep esc`: split `str` on `sep`, except that `esc`
immediately before `sep` escapes it; the empty string yields no tokens.
Translation of:

    if str == "" { return nil }
    str = strings.ReplaceAll(str, esc+sep, "\x00")
    tokens := strings.Split(str, sep)
    for i, token := range tokens {
        tokens[i] = strings.ReplaceAll(token, "\x00", sep)
    }
    return tokens
-/
def splitEscape (str sep esc : String) : List String :=
  if str = "" then []
  else
    let str := goReplaceAll str (esc ++ sep) "\x00"
    (goSplit str sep).map (fun t => goReplaceAll t "\x00" sep)

/-- The function `envKeyForFlag(prefix, name)`; the first argument is the environment
prefix (Go parameter `prefix`). -/
def envKeyForFlag (pfx name : String) : String :=
  let name := goToUpper (goReplaceAll name "-" "_")
  if pfx = "" then name
  else goToUpper (goReplaceAll pfx "-" "_") ++ "_" ++ name

/-- The function `genEnvMap(env)`: the `KEY=VALUE` entries that contain a `=`, as an
association list in entry order; lookups take the last binding
(`envMap[k] = v` overwrites, last write wins). -/
def genEnvMap (env : List String) : List (String × String) :=
  env.foldl
    (fun m en =>
      match goCut en "=" with
      | some kv => m ++ [kv]
      | none => m)
    []

/-- Lookup in an association list built by `genEnvMap`, last binding wins
(Go map semantics). -/
def mapGet (m : List (String × String)) (k : String) : Option String :=
  (m.reverse.find? (fun p => p.1 == k)).map (·.2)

/-- The `expand` closure of both resolution passes:
`os.Expand(v, func(k string) string { return envMap[k] })` — a missing key
yields the Go map zero value `""`. -/
def expandWith (envMap : List (String × String)) (v : String) : String :=
  osExpand v (fun k => (mapGet envMap k).getD "")

/-- A registered flag: its name, the ordered history of successful
`Value.Set` calls (the abstract state of its `flag.Value`), and its
setter's validation — `setErr v = some e` when `Value.Set(v)` returns the
error `e` (leaving the value unchanged), `none` when it succeeds. -/
structure Flag where
  name : String
  value : List String
  setErr : String → Option String

/-- The inner loop shared by both passes: apply each value in order to the
flag's setter, expanding it first; a failing setter contributes its error
and the loop continues with the next value.  Translation of:

    for _, v := range vs {
        v = expand(v)
        if err := f.Value.Set(v); err != nil {
            flagErrs = append(flagErrs, err)
            continue
        }
    }
-/
def applyValues (expand : String → String) (f : Flag) : List String → Flag × List String
  | [] => (f, [])
  | v :: vs =>
    let v := expand v
    match f.setErr v with
    | some e =>
      let r := applyValues expand f vs
      (r.1, e :: r.2)
    | none => applyValues expand { f with value := f.value ++ [v] } vs

/-- The `fl.VisitAll` callback body of `ParseEnvSet` for one flag:
skip it when already set, otherwise look its key up in the environment,
split, expand and apply. -/
def visitFlagEnv (pfx : String) (envMap : List (String × String)) (setNames : List String)
    (f : Flag) : Flag × List String :=
  if f.name ∈ setNames then (f, [])
  else
    applyValues (expandWith envMap) f
      (splitEscape ((mapGet envMap (envKeyForFlag pfx f.name)).getD "") "," "\\")

/-- The per-key value lists of the `config` map: `config[k]` accumulates
values in file order. -/
def configGet (cfg : List (String × String)) (k : String) : List String :=
  (cfg.filter (fun p => p.1 == k)).map (·.2)

/-- The `fl.VisitAll` callback body of `ParseConfigSet` for one flag:
skip it when already set, otherwise expand and apply `config[f.Name]` in
file order. -/
def visitFlagConfig (expand : String → String) (cfg : List (String × String))
    (setNames : List String) (f : Flag) : Flag × List String :=
  if f.name ∈ setNames then (f, [])
  else applyValues expand f (configGet cfg f.name)

/-- A `flag.FlagSet`: its `Name()`, its flags in `VisitAll` order, and the
names `Visit` reports (Go's `FlagSet.actual` — flags explicitly set on the
command line; `getSetFlags` reads exactly this). -/
structure FlagSet where
  name : String
  flags : List Flag
  actual : List String

/-- The function `fl.VisitAll` with a callback that updates one flag and contributes
errors: every flag is visited, results in visit order. -/
def visitAll (g : Flag → Flag × List String) (flags : List Flag) :
    List Flag × List String :=
  (flags.map (fun f => (g f).1), (flags.map (fun f => (g f).2)).flatten)

/-- A Go `error` as returned by the two passes: either a fatal wrapped
I/O error (`fmt.Errorf`) or the aggregate `errors.Join` of the collected
setter errors; `none` at the call site is the `nil` error. -/
inductive GoError where
  | fatal (msg : String)
  | agg (errs : List String)
deriving DecidableEq

/-- The function `errors.Join(flagErrs...)`: `nil` for no errors, otherwise one
compound error whose constituents are exactly the collected errors. -/
def errorsJoin (errs : List String) : Option GoError :=
  if errs = [] then none else some (.agg errs)

/-- The function `ParseEnvSet(fl, env)`.  The prefix is the default
`ReadEnvPrefix = filepath.Base(fl.Name())`.  Returns the updated flag set
and the function's `error` result. -/
def parseEnvSet (fl : FlagSet) (env : List String) : FlagSet × Option GoError :=
  let pfx := filepathBase fl.name
  let envMap := genEnvMap env
  let r := visitAll (visitFlagEnv pfx envMap fl.actual) fl.flags
  ({ fl with flags := r.1 }, errorsJoin r.2)

/-- The outcome of `os.Open` followed by `bufio.Scanner` on one path:
the path does not exist, opening fails otherwise (`msg` is the underlying
error text), or the file opens and the scanner yields `lines` and then
reports `scanErr` from `sc.Err()`. -/
inductive OpenResult where
  | notExist
  | openErr (msg : String)
  | ok (lines : List String) (scanErr : Option String)

/-- One iteration of the scanning loop of `ParseConfigSet`: trim the line,
skip it if empty or a `#` comment, otherwise split at the first tab or
space (`strings.IndexAny(line, "\t ")`); a line with no tab or space is a
bare key with value `"true"`. -/
def parseLine (rawLine : String) : Option (String × String) :=
  let line := trimSpaceL rawLine.data
  if line = [] ∨ ['#'].isPrefixOf line then none
  else
    match indexTabSpace line with
    | none => some (String.mk line, "true")
    | some idx => some (String.mk (line.take idx), String.mk (trimSpaceL (line.drop idx)))

/-- The whole scanning loop: `config[k] = append(config[k], v)` in line
order, as the list of parsed `(key, value)` pairs. -/
def buildConfig (lines : List String) : List (String × String) :=
  lines.foldl
    (fun cfg l =>
      match parseLine l with
      | some kv => cfg ++ [kv]
      | none => cfg)
    []

/-- The function `ParseConfigSet(fl, env, path)` against the file system `fs`. -/
def parseConfigSet (fs : String → OpenResult) (fl : FlagSet) (env : List String)
    (path : String) : FlagSet × Option GoError :=
  if path = "" then (fl, none)
  else
    let envMap := genEnvMap env
    let path := expandWith envMap path
    match fs path with
    | .notExist => (fl, none)
    | .openErr msg => (fl, some (.fatal ("open config file: " ++ msg)))
    | .ok lines scanErr =>
      let cfg := buildConfig lines
      match scanErr with
      | some e => (fl, some (.fatal ("scan config: " ++ e)))
      | none =>
        let r := visitAll (visitFlagConfig (expandWith envMap) cfg fl.actual) fl.flags
        ({ fl with flags := r.1 }, errorsJoin r.2)

/-! ## Example flags, flag sets and file systems (used by witnesses) -/

/-- A plain string flag whose setter always succeeds (like `flag.String`). -/
def strFlag : Flag := { name := "str", value := [], setErr := fun _ => none }

/-- A flag whose setter always fails (the test suite's `willErr` value). -/
def errFlag : Flag :=
  { name := "will-err", value := [], setErr := fun v => some ("invalid option " ++ v) }

/-- An `arr`-style flag whose setter always succeeds. -/
def arrFlag : Flag := { name := "arr", value := [], setErr := fun _ => none }

/-- A file system on which every path opens to the single line
`"str confval"`. -/
def fsConf : String → OpenResult := fun _ => .ok ["str confval"] none

/-! ## Helper lemmas -/

theorem data_append (a b : String) : (a ++ b).data = a.data ++ b.data := rfl

theorem setErr_update (f : Flag) (v : List String) :
    ({ f with value := v } : Flag).setErr = f.setErr := rfl

/-- The skip counter consumes exactly the characters `os.Expand` jumps
over. -/
theorem expandAux_skip (m : String → String) :
    ∀ (l : List Char) (n : Nat), expandAux m n l = expandAux m 0 (l.drop n)
  | _, 0 => by rw [List.drop_zero]
  | [], _ + 1 => rfl
  | _ :: rest, n + 1 => by
    rw [List.drop_succ_cons]
    exact expandAux_skip m rest n

/-- What the shared inner loop does, in closed form: every value is
expanded and attempted; failures are collected, successes are appended to
the flag's value history, and neither interferes with the other. -/
theorem applyValues_spec (expand : String → String) :
    ∀ (f : Flag) (vs : List String),
      applyValues expand f vs =
        ({ f with value := f.value ++ (vs.map expand).filter (fun v => (f.setErr v).isNone) },
          (vs.map expand).filterMap f.setErr)
  | f, [] => by simp [applyValues]
  | f, v :: vs => by
    simp only [applyValues, List.map_cons, List.filter_cons, List.filterMap_cons]
    cases h : f.setErr (expand v) with
    | some e =>
      rw [applyValues_spec expand f vs]
      simp [h]
    | none =>
      rw [applyValues_spec expand { f with value := f.value ++ [expand v] } vs]
      simp [h]

/-! ## C1 -/

/-- Claim C1:  A flag already explicitly set before the call — i.e. whose
name is among those the registry's own set tracking (`flag.FlagSet.Visit`,
field `actual`) reports — is never touched by either resolution pass: its
per-flag visit in each pass returns the flag unchanged with no setter
invocation and no error, and its entry in the flag list is unchanged by
both `ParseEnvSet` and `ParseConfigSet`. -/
theorem c1_set_flags_untouched (fl : FlagSet) (env : List String)
    (fs : String → OpenResult) (path : String) (i : Nat) (f : Flag)
    (hf : fl.flags[i]? = some f) (hset : f.name ∈ fl.actual) :
    (parseEnvSet fl env).1.flags[i]? = some f ∧
    (parseConfigSet fs fl env path).1.flags[i]? = some f ∧
    (∀ pfx envMap, visitFlagEnv pfx envMap fl.actual f = (f, [])) ∧
    (∀ expand cfg, visitFlagConfig expand cfg fl.actual f = (f, [])) := by
  have henv : ∀ pfx envMap, visitFlagEnv pfx envMap fl.actual f = (f, []) := by
    intro pfx envMap
    simp [visitFlagEnv, hset]
  have hcfg : ∀ expand cfg, visitFlagConfig expand cfg fl.actual f = (f, []) := by
    intro expand cfg
    simp [visitFlagConfig, hset]
  refine ⟨?_, ?_, henv, hcfg⟩
  · simp [parseEnvSet, visitAll, List.getElem?_map, hf, henv]
  · unfold parseConfigSet
    split
    · exact hf
    · cases hfs : fs (expandWith (genEnvMap env) path) with
      | notExist => simp [hfs, hf]
      | openErr msg => simp [hfs, hf]
      | ok lines scanErr =>
        cases scanErr with
        | some e => simp [hfs, hf]
        | none => simp [hfs, visitAll, List.getElem?_map, hf, hcfg]

/-- The flag set of the C1 witness: one `str` flag, already set on the
command line. -/
def wFl1 : FlagSet := { name := "my-app", flags := [strFlag], actual := ["str"] }

/-- Witness for C1 at a concrete input: the environment does supply
`MY_APP_STR` and the config file does contain `str`, yet the explicitly
set flag stays untouched. -/
theorem c1_set_flags_untouched_witness :
    wFl1.flags[0]? = some strFlag ∧ strFlag.name ∈ wFl1.actual ∧
    ((parseEnvSet wFl1 ["MY_APP_STR=envval"]).1.flags[0]? = some strFlag ∧
      (parseConfigSet fsConf wFl1 ["MY_APP_STR=envval"] "conf").1.flags[0]? = some strFlag ∧
      (∀ pfx envMap, visitFlagEnv pfx envMap wFl1.actual strFlag = (strFlag, [])) ∧
      (∀ expand cfg, visitFlagConfig expand cfg wFl1.actual strFlag = (strFlag, []))) :=
  ⟨rfl, by decide,
    c1_set_flags_untouched wFl1 ["MY_APP_STR=envval"] fsConf "conf" 0 strFlag rfl (by decide)⟩

/-! ## C4 -/

/-- Claim C4:  A setter rejection never stops a pass.  The shared inner loop
attempts every value: failures are collected in order while the remaining
values are still applied.  Both passes visit every flag (the resulting
flag list is the per-flag image of the input list), collect all per-flag
errors, and return `errors.Join` of them: an enumerable aggregate that is
`nil` exactly when no setter failed. -/
theorem c4_setter_errors_collected :
    (∀ (expand : String → String) (f : Flag) (vs : List String),
      applyValues expand f vs =
        ({ f with value := f.value ++ (vs.map expand).filter (fun v => (f.setErr v).isNone) },
          (vs.map expand).filterMap f.setErr)) ∧
    (∀ (fl : FlagSet) (env : List String) (i : Nat),
      (parseEnvSet fl env).1.flags[i]? =
        (fl.flags[i]?).map
          (fun f => (visitFlagEnv (filepathBase fl.name) (genEnvMap env) fl.actual f).1)) ∧
    (∀ (fl : FlagSet) (env : List String),
      (parseEnvSet fl env).2 =
        errorsJoin
          ((fl.flags.map
            (fun f => (visitFlagEnv (filepathBase fl.name) (genEnvMap env) fl.actual f).2)).flatten)) ∧
    errorsJoin [] = none ∧
    (∀ (e : String) (es : List String), errorsJoin (e :: es) = some (.agg (e :: es))) ∧
    (∀ (fs : String → OpenResult) (fl : FlagSet) (env : List String) (path : String)
        (lines : List String),
      path ≠ "" →
      fs (expandWith (genEnvMap env) path) = .ok lines none →
      (∀ i : Nat,
        (parseConfigSet fs fl env path).1.flags[i]? =
          (fl.flags[i]?).map
            (fun f =>
              (visitFlagConfig (expandWith (genEnvMap env)) (buildConfig lines) fl.actual f).1)) ∧
      (parseConfigSet fs fl env path).2 =
        errorsJoin
          ((fl.flags.map
            (fun f =>
              (visitFlagConfig (expandWith (genEnvMap env)) (buildConfig lines) fl.actual f).2)).flatten)) := by
  refine ⟨applyValues_spec, ?_, ?_, rfl, ?_, ?_⟩
  · intro fl env i
    simp [parseEnvSet, visitAll, List.getElem?_map]
  · intro fl env
    rfl
  · intro e es
    simp [errorsJoin]
  · intro fs fl env path lines hpath hfs
    constructor
    · intro i
      simp [parseConfigSet, hpath, hfs, visitAll, List.getElem?_map]
    · simp [parseConfigSet, hpath, hfs, visitAll]

/-- The flag set of the C4 witness: a failing flag first, a succeeding
flag after it. -/
def wFl4 : FlagSet := { name := "my-app", flags := [errFlag, strFlag], actual := [] }

/-- The file system of the C4 witness: the config file feeds both flags,
`will-err` twice. -/
def wFs4 : String → OpenResult := fun _ => .ok ["will-err a", "will-err b", "str s"] none

/-- Witness for C4: a config file whose first flag's setter always fails
still has its second value attempted and still resolves the later `str`
flag; the aggregate enumerates both failures. -/
theorem c4_setter_errors_collected_witness :
    ("conf" : String) ≠ "" ∧
    wFs4 (expandWith (genEnvMap []) "conf") = .ok ["will-err a", "will-err b", "str s"] none ∧
    (parseConfigSet wFs4 wFl4 [] "conf").2 =
      errorsJoin
        ((wFl4.flags.map
          (fun f =>
            (visitFlagConfig (expandWith (genEnvMap []))
              (buildConfig ["will-err a", "will-err b", "str s"]) wFl4.actual f).2)).flatten) ∧
    (parseConfigSet wFs4 wFl4 [] "conf").2 = some (.agg ["invalid option a", "invalid option b"]) ∧
    (parseConfigSet wFs4 wFl4 [] "conf").1.flags.map Flag.value = [[], ["s"]] := by
  refine ⟨by decide, rfl, ?_, by decide, by decide⟩
  exact (c4_setter_errors_collected.2.2.2.2.2 wFs4 wFl4 [] "conf"
    ["will-err a", "will-err b", "str s"] (by decide) rfl).2

/-! ## C5 -/

/-- Claim C5:  The list splitter splits only on unescaped delimiters:
`a,b\,c,d` yields exactly `a`, `b,c`, `d`; an escape not immediately
before the delimiter stays in its token; the empty string yields no tokens
at all — and consequently a flag whose environment variable is absent or
empty (lookup yields the map zero value `""`) receives no setter call in
the environment pass. -/
theorem c5_split_escape :
    splitEscape "a,b\\,c,d" "," "\\" = ["a", "b,c", "d"] ∧
    splitEscape "a\\bc,d" "," "\\" = ["a\\bc", "d"] ∧
    splitEscape "" "," "\\" = [] ∧
    (∀ (pfx : String) (envMap : List (String × String)) (setNames : List String) (f : Flag),
      (mapGet envMap (envKeyForFlag pfx f.name)).getD "" = "" →
      visitFlagEnv pfx envMap setNames f = (f, [])) := by
  refine ⟨by decide, by decide, rfl, ?_⟩
  intro pfx envMap setNames f h
  by_cases hmem : f.name ∈ setNames
  · simp [visitFlagEnv, hmem]
  · simp [visitFlagEnv, hmem, h, splitEscape, applyValues]

/-- Witness for C5: an environment containing only an unrelated variable
leaves the `str` flag without a single setter call. -/
theorem c5_split_escape_witness :
    ((mapGet (genEnvMap ["OTHER=x"]) (envKeyForFlag "my-app" strFlag.name)).getD "" = "" ∧
      visitFlagEnv "my-app" (genEnvMap ["OTHER=x"]) [] strFlag = (strFlag, [])) :=
  ⟨by decide,
    c5_split_escape.2.2.2 "my-app" (genEnvMap ["OTHER=x"]) [] strFlag (by decide)⟩

/-! ## C6 -/

/-- Single-character `strings.ReplaceAll` is a character map. -/
theorem replaceAllAux_single (a b : Char) :
    ∀ l : List Char, replaceAllAux [a] [b] 0 l = l.map (fun c => if c = a then b else c)
  | [] => rfl
  | c :: rest => by
    simp only [replaceAllAux, List.isPrefixOf_cons₂, List.isPrefixOf_nil_left, Bool.and_true,
      List.map_cons]
    by_cases h : a = c
    · subst h
      simp [replaceAllAux_single a b rest]
    · have hca : ¬c = a := fun h' => h h'.symm
      simp [h, hca, replaceAllAux_single a b rest]

/-- The key derivation the spec describes, written charwise: uppercase
each character, mapping `-` to `_`. -/
def specKeyPart (s : String) : String :=
  String.mk (s.data.map (fun c => if c = '-' then '_' else c.toUpper))

/-- Claim C6:  The environment lookup key is the prefix and flag name each
uppercased with `-` turned into `_`, joined by a single `_`; with an empty
prefix it is just the transformed name, with no leading underscore. -/
theorem c6_env_key_derivation :
    (∀ pfx name : String,
      envKeyForFlag pfx name =
        if pfx = "" then specKeyPart name
        else specKeyPart pfx ++ "_" ++ specKeyPart name) ∧
    envKeyForFlag "my-app" "some-string" = "MY_APP_SOME_STRING" ∧
    envKeyForFlag "" "some-string" = "SOME_STRING" := by
  have hmap : ∀ s : String,
      goToUpper (goReplaceAll s "-" "_") = specKeyPart s := by
    intro s
    have hcomp :
        (fun c => Char.toUpper (if c = '-' then '_' else c)) =
          (fun c => if c = '-' then '_' else c.toUpper) := by
      funext c
      by_cases h : c = '-'
      · simp [h]
      · simp [h]
    simp only [goToUpper, goReplaceAll, replaceAll, specKeyPart]
    rw [replaceAllAux_single]
    rw [List.map_map]
    rw [show (Char.toUpper ∘ fun c => if c = '-' then '_' else c) =
      (fun c => if c = '-' then '_' else c.toUpper) from hcomp]
  refine ⟨?_, by decide, by decide⟩
  intro pfx name
  by_cases h : pfx = ""
  · simp [envKeyForFlag, h, hmap]
  · simp [envKeyForFlag, h, hmap]

/-! ## C10 -/

/-- If `c` does not occur in `l`, the first occurrence of `c` in
`l ++ [c]` is at position `l.length`. -/
theorem strIndex_append_self (c : Char) :
    ∀ l : List Char, strIndex [c] l = none → strIndex [c] (l ++ [c]) = some l.length := by
  intro l
  induction l with
  | nil =>
    intro _
    simp [strIndex, List.isPrefixOf_cons₂, List.isPrefixOf_nil_left]
  | cons d rest ih =>
    intro h
    rw [List.cons_append]
    simp only [strIndex, List.isPrefixOf_cons₂, List.isPrefixOf_nil_left, Bool.and_true] at h ⊢
    by_cases hcd : (c == d) = true
    · rw [if_pos hcd] at h
      exact absurd h (by simp)
    · rw [if_neg hcd] at h ⊢
      rw [Option.map_eq_none'] at h
      rw [ih h, Option.map_some', List.length_cons]

/-- Behavior of `strings.Cut` around the `=` appended to an `=`-free string: the key is
the whole string, the value is empty. -/
theorem goCut_append_eq (k : String) (h : goCut k "=" = none) :
    goCut (k ++ "=") "=" = some (k, "") := by
  have hnone : strIndex ("=" : String).data k.data = none := by
    unfold goCut at h
    cases hix : strIndex ("=" : String).data k.data with
    | none => rfl
    | some i => rw [hix] at h; exact absurd h (by simp)
  have hdata : (k ++ "=").data = k.data ++ ['='] := rfl
  have hix : strIndex ['='] (k.data ++ ['=']) = some k.data.length :=
    strIndex_append_self '=' k.data hnone
  have htake : (k.data ++ ['=']).take k.data.length = k.data := List.take_left k.data ['=']
  have hdrop : (k.data ++ ['=']).drop (k.data.length + 1) = [] := by
    have hlen : (k.data ++ ['=']).length = k.data.length + 1 := by simp
    rw [show k.data.length + 1 = (k.data ++ ['=']).length from hlen.symm]
    exact List.drop_length _
  have hstep : goCut (k ++ "=") "=" =
      some (String.mk ((k.data ++ ['=']).take k.data.length),
        String.mk ((k.data ++ ['=']).drop (k.data.length + 1))) := by
    unfold goCut
    rw [hdata]
    rw [show (("=" : String).data = ['=']) from rfl]
    rw [hix]
    rfl
  rw [hstep, htake, hdrop]

/-- Behavior of `genEnvMap` on one more entry: a `KEY=VALUE` entry appends its
binding, any other entry contributes nothing. -/
theorem genEnvMap_append (env : List String) (e : String) :
    genEnvMap (env ++ [e]) =
      match goCut e "=" with
      | some kv => genEnvMap env ++ [kv]
      | none => genEnvMap env := by
  simp only [genEnvMap, List.foldl_append, List.foldl_cons, List.foldl_nil]

/-- Claim C10:  An environment entry with no `=` creates no binding in the
snapshot — it can neither supply a value nor affect expansion, so the
whole environment pass is unchanged by it — while an entry `K=` binds `K`
to the empty string. -/
theorem c10_env_snapshot :
    (∀ (env : List String) (e : String), goCut e "=" = none →
      genEnvMap (env ++ [e]) = genEnvMap env) ∧
    (∀ (fl : FlagSet) (env : List String) (e : String), goCut e "=" = none →
      parseEnvSet fl (env ++ [e]) = parseEnvSet fl env) ∧
    (∀ (env : List String) (k : String), goCut k "=" = none →
      mapGet (genEnvMap (env ++ [k ++ "="])) k = some "") ∧
    genEnvMap ["NOEQ", "A=1", "B="] = [("A", "1"), ("B", "")] := by
  have hskip : ∀ (env : List String) (e : String), goCut e "=" = none →
      genEnvMap (env ++ [e]) = genEnvMap env := by
    intro env e h
    rw [genEnvMap_append, h]
  refine ⟨hskip, ?_, ?_, by decide⟩
  · intro fl env e h
    unfold parseEnvSet
    rw [hskip env e h]
  · intro env k h
    rw [genEnvMap_append, goCut_append_eq k h]
    simp [mapGet, List.find?]

/-- Witness for C10: `NOEQ` feeds nothing into the snapshot or the pass;
`B=` binds `B` to `""`. -/
theorem c10_env_snapshot_witness :
    goCut "NOEQ" "=" = none ∧
    genEnvMap (["A=1"] ++ ["NOEQ"]) = genEnvMap ["A=1"] ∧
    parseEnvSet wFl1 (["A=1"] ++ ["NOEQ"]) = parseEnvSet wFl1 ["A=1"] ∧
    goCut "B" "=" = none ∧
    mapGet (genEnvMap (["A=1"] ++ ["B" ++ "="])) "B" = some "" :=
  ⟨by decide,
    c10_env_snapshot.1 ["A=1"] "NOEQ" (by decide),
    c10_env_snapshot.2.1 wFl1 ["A=1"] "NOEQ" (by decide),
    by decide,
    c10_env_snapshot.2.2.1 ["A=1"] "B" (by decide)⟩

/-! ## C9 -/

/-- Unfolding the scanning fold from an arbitrary accumulated table. -/
theorem buildConfig_acc :
    ∀ (lines : List String) (acc : List (String × String)),
      lines.foldl
        (fun cfg l =>
          match parseLine l with
          | some kv => cfg ++ [kv]
          | none => cfg)
        acc = acc ++ buildConfig lines
  | [], acc => by simp [buildConfig]
  | l :: ls, acc => by
    rw [List.foldl_cons]
    rw [buildConfig_acc ls]
    show _ = acc ++ List.foldl _ _ (l :: ls)
    rw [List.foldl_cons]
    rw [buildConfig_acc ls]
    cases parseLine l with
    | some kv => simp
    | none => simp

/-- The table builder `buildConfig` distributes over list append. -/
theorem buildConfig_append (l₁ l₂ : List String) :
    buildConfig (l₁ ++ l₂) = buildConfig l₁ ++ buildConfig l₂ := by
  show List.foldl _ _ _ = _
  rw [List.foldl_append]
  rw [show List.foldl _ _ l₁ = buildConfig l₁ from rfl]
  exact buildConfig_acc l₂ (buildConfig l₁)

/-- One parsed line contributes exactly its key/value pair. -/
theorem buildConfig_cons (l : String) (ls : List String) :
    buildConfig (l :: ls) =
      (match parseLine l with
        | some kv => [kv]
        | none => []) ++ buildConfig ls := by
  show List.foldl _ _ _ = _
  rw [List.foldl_cons]
  rw [buildConfig_acc ls]
  cases parseLine l with
  | some kv => simp
  | none => simp

/-- A table entry under a key different from `nm` is invisible to
`config[nm]`. -/
theorem configGet_middle (c₁ c₂ : List (String × String)) (k v nm : String)
    (h : (k == nm) = false) :
    configGet (c₁ ++ (k, v) :: c₂) nm = configGet (c₁ ++ c₂) nm := by
  simp [configGet, List.filter_append, List.filter_cons, h]

/-- The function `VisitAll` with callbacks that agree on the visited flags. -/
theorem visitAll_congr (g₁ g₂ : Flag → Flag × List String) (flags : List Flag)
    (h : ∀ f ∈ flags, g₁ f = g₂ f) : visitAll g₁ flags = visitAll g₂ flags := by
  unfold visitAll
  simp only [Prod.mk.injEq]
  constructor
  · exact List.map_congr_left (fun f hf => by rw [h f hf])
  · congr 1
    exact List.map_congr_left (fun f hf => by rw [h f hf])

/-- Claim C9:  A config-file key that names no registered flag is silently
ignored: removing such a line changes nothing about the result of
`ParseConfigSet`, and a successfully opened and scanned file never
produces a fatal error — only (possibly) an aggregate of setter errors. -/
theorem c9_unknown_keys_ignored :
    (∀ (fl : FlagSet) (env : List String) (path : String) (lines₁ lines₂ : List String)
        (line k v : String),
      path ≠ "" →
      parseLine line = some (k, v) →
      (∀ f ∈ fl.flags, (k == f.name) = false) →
      parseConfigSet (fun _ => .ok (lines₁ ++ line :: lines₂) none) fl env path =
        parseConfigSet (fun _ => .ok (lines₁ ++ lines₂) none) fl env path) ∧
    (∀ (fl : FlagSet) (env : List String) (path : String) (lines : List String) (m : String),
      (parseConfigSet (fun _ => .ok lines none) fl env path).2 ≠ some (.fatal m)) := by
  constructor
  · intro fl env path lines₁ lines₂ line k v hpath hline hk
    have hcfg : buildConfig (lines₁ ++ line :: lines₂) =
        buildConfig lines₁ ++ (k, v) :: buildConfig lines₂ := by
      rw [buildConfig_append, buildConfig_cons, hline]
      simp
    have hvisit : ∀ f ∈ fl.flags,
        visitFlagConfig (expandWith (genEnvMap env)) (buildConfig (lines₁ ++ line :: lines₂))
            fl.actual f =
          visitFlagConfig (expandWith (genEnvMap env)) (buildConfig (lines₁ ++ lines₂))
            fl.actual f := by
      intro f hf
      unfold visitFlagConfig
      rw [hcfg, buildConfig_append]
      rw [configGet_middle _ _ _ _ _ (hk f hf)]
    simp only [parseConfigSet, hpath, if_neg]
    rw [visitAll_congr _ _ _ hvisit]
  · intro fl env path lines m
    unfold parseConfigSet
    split
    · simp
    · show (_, errorsJoin _).2 ≠ _
      unfold errorsJoin
      split
      · simp
      · simp

/-- The flag set of the C9 witness: one unset `str` flag. -/
def wFl9 : FlagSet := { name := "my-app", flags := [strFlag], actual := [] }

/-- Witness for C9, with the test suite's `unknown-option hello` line. -/
theorem c9_unknown_keys_ignored_witness :
    ("conf" : String) ≠ "" ∧
    parseLine "unknown-option hello" = some ("unknown-option", "hello") ∧
    (∀ f ∈ wFl9.flags, ("unknown-option" == f.name) = false) ∧
    parseConfigSet (fun _ => .ok (["str s"] ++ "unknown-option hello" :: []) none) wFl9 [] "conf" =
      parseConfigSet (fun _ => .ok (["str s"] ++ []) none) wFl9 [] "conf" ∧
    (parseConfigSet (fun _ => .ok ["unknown-option hello"] none) wFl9 [] "conf").2 ≠
      some (.fatal "x") :=
  ⟨by decide, rfl, by decide,
    c9_unknown_keys_ignored.1 wFl9 [] "conf" ["str s"] [] "unknown-option hello"
      "unknown-option" "hello" (by decide) rfl (by decide),
    c9_unknown_keys_ignored.2 wFl9 [] "conf" ["unknown-option hello"] "x"⟩

/-! ## C3 -/

/-- Claim C3, counterexample:  A scan failure is reported as
`"scan config: <cause>"`; the message claimed by the spec,
`"scan config file"`, does not occur in it. -/
theorem c3_scan_message_counterexample :
    (parseConfigSet (fun _ => .ok [] (some "read some-dir: is a directory")) wFl9 []
        "some-dir").2 =
      some (.fatal "scan config: read some-dir: is a directory") ∧
    strContains "scan config: read some-dir: is a directory" "scan config file" = false ∧
    strContains "scan config: read some-dir: is a directory" "scan config" = true :=
  ⟨by decide, by decide, by decide⟩

/-- Claim C3, amended:  `ParseConfigSet` succeeds with no flag touched on an
empty path and on a nonexistent (expanded) path; any other open failure
returns `"open config file: <cause>"`, and a scan failure returns
`"scan config: <cause>"` (not `"scan config file"`); in all four outcomes
the flag set is returned unchanged, so no setter has run. -/
theorem c3_config_error_outcomes :
    (∀ (fs : String → OpenResult) (fl : FlagSet) (env : List String),
      parseConfigSet fs fl env "" = (fl, none)) ∧
    (∀ (fs : String → OpenResult) (fl : FlagSet) (env : List String) (path : String),
      path ≠ "" →
      fs (expandWith (genEnvMap env) path) = .notExist →
      parseConfigSet fs fl env path = (fl, none)) ∧
    (∀ (fs : String → OpenResult) (fl : FlagSet) (env : List String) (path m : String),
      path ≠ "" →
      fs (expandWith (genEnvMap env) path) = .openErr m →
      parseConfigSet fs fl env path = (fl, some (.fatal ("open config file: " ++ m)))) ∧
    (∀ (fs : String → OpenResult) (fl : FlagSet) (env : List String) (path : String)
        (lines : List String) (e : String),
      path ≠ "" →
      fs (expandWith (genEnvMap env) path) = .ok lines (some e) →
      parseConfigSet fs fl env path = (fl, some (.fatal ("scan config: " ++ e)))) := by
  refine ⟨?_, ?_, ?_, ?_⟩
  · intro fs fl env
    rfl
  · intro fs fl env path hpath hfs
    simp [parseConfigSet, hpath, hfs]
  · intro fs fl env path m hpath hfs
    simp [parseConfigSet, hpath, hfs]
  · intro fs fl env path lines e hpath hfs
    simp [parseConfigSet, hpath, hfs]

/-- Witness for the amended C3, one concrete file system per outcome. -/
theorem c3_config_error_outcomes_witness :
    parseConfigSet (fun _ => .notExist) wFl9 [] "" = (wFl9, none) ∧
    (("conf" : String) ≠ "" ∧
      parseConfigSet (fun _ => .notExist) wFl9 [] "conf" = (wFl9, none)) ∧
    parseConfigSet (fun _ => .openErr "open conf-no-perm: permission denied") wFl9 [] "conf" =
      (wFl9, some (.fatal "open config file: open conf-no-perm: permission denied")) ∧
    parseConfigSet (fun _ => .ok [] (some "boom")) wFl9 [] "conf" =
      (wFl9, some (.fatal "scan config: boom")) :=
  ⟨c3_config_error_outcomes.1 (fun _ => .notExist) wFl9 [],
    ⟨by decide, c3_config_error_outcomes.2.1 (fun _ => .notExist) wFl9 [] "conf" (by decide) rfl⟩,
    c3_config_error_outcomes.2.2.1 (fun _ => .openErr "open conf-no-perm: permission denied")
      wFl9 [] "conf" "open conf-no-perm: permission denied" (by decide) rfl,
    c3_config_error_outcomes.2.2.2 (fun _ => .ok [] (some "boom")) wFl9 [] "conf" [] "boom"
      (by decide) rfl⟩

/-! ## C2 -/

/-- Claim C2, counterexample:  One unset `str` flag, supplied by *both* the
environment (`MY_APP_STR=envval`) and the config file (`str confval`):
after `ParseEnvSet` its value history is `["envval"]`, and the subsequent
`ParseConfigSet` invokes the setter again, leaving `["envval", "confval"]`
— the config value lands after (and, for a last-value-wins flag,
overwrites) the environment value, so both external sources supplied the
same option. -/
theorem c2_both_sources_counterexample :
    (parseEnvSet wFl9 ["MY_APP_STR=envval"]).1.flags.map Flag.value = [["envval"]] ∧
    (parseConfigSet fsConf (parseEnvSet wFl9 ["MY_APP_STR=envval"]).1 ["MY_APP_STR=envval"]
        "conf").1.flags.map Flag.value = [["envval", "confval"]] :=
  ⟨by decide, by decide⟩

/-- The inner loop under a never-failing setter simply appends every
expanded value. -/
theorem applyValues_ok (expand : String → String) (f : Flag) (vs : List String)
    (h : ∀ v, f.setErr v = none) :
    applyValues expand f vs = ({ f with value := f.value ++ vs.map expand }, []) := by
  rw [applyValues_spec]
  simp [h]

/-- Claim C2, amended:  Each resolver consults only its own source within
its pass, but neither pass records its applications in the registry's set
tracking (`actual` is returned unchanged by both).  Hence a flag not
explicitly set that both sources supply receives setter calls from both
passes, in pass order: after env-then-config its value history is the old
history, then the split-and-expanded environment tokens, then the expanded
config values — and symmetrically for config-then-env. -/
theorem c2_cross_pass_application :
    (∀ (fl : FlagSet) (env : List String),
      (parseEnvSet fl env).1.actual = fl.actual ∧ (parseEnvSet fl env).1.name = fl.name) ∧
    (∀ (fs : String → OpenResult) (fl : FlagSet) (env : List String) (path : String),
      (parseConfigSet fs fl env path).1.actual = fl.actual ∧
      (parseConfigSet fs fl env path).1.name = fl.name) ∧
    (∀ (pfx : String) (envMap cfg : List (String × String)) (expand : String → String)
        (setNames : List String) (f : Flag),
      f.name ∉ setNames → (∀ v, f.setErr v = none) →
      (visitFlagConfig expand cfg setNames (visitFlagEnv pfx envMap setNames f).1).1.value =
        f.value ++
          (splitEscape ((mapGet envMap (envKeyForFlag pfx f.name)).getD "") "," "\\").map
            (expandWith envMap) ++
          (configGet cfg f.name).map expand) ∧
    (∀ (pfx : String) (envMap cfg : List (String × String)) (expand : String → String)
        (setNames : List String) (f : Flag),
      f.name ∉ setNames → (∀ v, f.setErr v = none) →
      (visitFlagEnv pfx envMap setNames (visitFlagConfig expand cfg setNames f).1).1.value =
        f.value ++ (configGet cfg f.name).map expand ++
          (splitEscape ((mapGet envMap (envKeyForFlag pfx f.name)).getD "") "," "\\").map
            (expandWith envMap)) := by
  refine ⟨?_, ?_, ?_, ?_⟩
  · intro fl env
    exact ⟨rfl, rfl⟩
  · intro fs fl env path
    by_cases hpath : path = ""
    · simp [parseConfigSet, hpath]
    · cases hfs : fs (expandWith (genEnvMap env) path) with
      | notExist => simp [parseConfigSet, hpath, hfs]
      | openErr m => simp [parseConfigSet, hpath, hfs]
      | ok lines scanErr =>
        cases scanErr with
        | some e => simp [parseConfigSet, hpath, hfs]
        | none => simp [parseConfigSet, hpath, hfs]
  · intro pfx envMap cfg expand setNames f hmem hok
    have h1 : visitFlagEnv pfx envMap setNames f =
        ({ f with
            value := f.value ++ List.map (expandWith envMap)
              (splitEscape ((mapGet envMap (envKeyForFlag pfx f.name)).getD "") "," "\\") },
          []) := by
      simp only [visitFlagEnv, if_neg hmem]
      exact applyValues_ok _ _ _ hok
    have h2 := applyValues_ok expand
      { f with
        value := f.value ++ List.map (expandWith envMap)
          (splitEscape ((mapGet envMap (envKeyForFlag pfx f.name)).getD "") "," "\\") }
      (configGet cfg f.name) hok
    rw [h1]
    simp only [visitFlagConfig, if_neg hmem]
    rw [h2]
  · intro pfx envMap cfg expand setNames f hmem hok
    have h1 : visitFlagConfig expand cfg setNames f =
        ({ f with value := f.value ++ List.map expand (configGet cfg f.name) }, []) := by
      simp only [visitFlagConfig, if_neg hmem]
      exact applyValues_ok _ _ _ hok
    have h2 := applyValues_ok (expandWith envMap)
      { f with value := f.value ++ List.map expand (configGet cfg f.name) }
      (splitEscape ((mapGet envMap (envKeyForFlag pfx f.name)).getD "") "," "\\") hok
    rw [h1]
    simp only [visitFlagEnv, if_neg hmem]
    rw [h2]

/-- Witness for the amended C2, at the counterexample's inputs. -/
theorem c2_cross_pass_application_witness :
    ((parseEnvSet wFl9 ["MY_APP_STR=envval"]).1.actual = wFl9.actual ∧
      (parseEnvSet wFl9 ["MY_APP_STR=envval"]).1.name = wFl9.name) ∧
    ((parseConfigSet fsConf wFl9 ["MY_APP_STR=envval"] "conf").1.actual = wFl9.actual ∧
      (parseConfigSet fsConf wFl9 ["MY_APP_STR=envval"] "conf").1.name = wFl9.name) ∧
    (visitFlagConfig (expandWith (genEnvMap ["MY_APP_STR=envval"]))
          (buildConfig ["str confval"]) []
          (visitFlagEnv "my-app" (genEnvMap ["MY_APP_STR=envval"]) [] strFlag).1).1.value =
      strFlag.value ++
        (splitEscape
            ((mapGet (genEnvMap ["MY_APP_STR=envval"])
              (envKeyForFlag "my-app" strFlag.name)).getD "") "," "\\").map
          (expandWith (genEnvMap ["MY_APP_STR=envval"])) ++
        (configGet (buildConfig ["str confval"]) strFlag.name).map
          (expandWith (genEnvMap ["MY_APP_STR=envval"])) :=
  ⟨c2_cross_pass_application.1 wFl9 ["MY_APP_STR=envval"],
    c2_cross_pass_application.2.1 fsConf wFl9 ["MY_APP_STR=envval"] "conf",
    c2_cross_pass_application.2.2.1 "my-app" (genEnvMap ["MY_APP_STR=envval"])
      (buildConfig ["str confval"]) (expandWith (genEnvMap ["MY_APP_STR=envval"])) [] strFlag
      (by decide) (fun _ => rfl)⟩

/-! ## C7 -/

/-- The first match in `l₁ ++ c :: l₂` sits at `l₁.length` when nothing in
`l₁` matches but `c` does. -/
theorem findIdx?_append_first {α : Type} (p : α → Bool) :
    ∀ (l₁ : List α) (c : α) (l₂ : List α),
      (∀ a ∈ l₁, p a = false) → p c = true →
      (l₁ ++ c :: l₂).findIdx? p = some l₁.length := by
  intro l₁
  induction l₁ with
  | nil =>
    intro c l₂ _ hc
    simp [List.findIdx?_cons, hc]
  | cons a t ih =>
    intro c l₂ h hc
    have ha : p a = false := h a (by simp)
    rw [List.cons_append, List.findIdx?_cons, ha]
    simp only [Bool.false_eq_true, if_false]
    rw [List.findIdx?_succ]
    rw [ih c l₂ (fun b hb => h b (by simp [hb])) hc]
    rfl

/-- A list whose first and last characters are not Go whitespace is left
unchanged by `strings.TrimSpace`. -/
theorem trimSpaceL_eq_self (l : List Char)
    (h1 : ∀ c, l.head? = some c → isGoSpace c = false)
    (h2 : ∀ c, l.getLast? = some c → isGoSpace c = false) :
    trimSpaceL l = l := by
  unfold trimSpaceL
  have hd : l.dropWhile isGoSpace = l := by
    cases l with
    | nil => rfl
    | cons c t => rw [List.dropWhile_cons_of_neg (by simp [h1 c rfl])]
  rw [hd]
  have hrev : l.reverse.dropWhile isGoSpace = l.reverse := by
    cases hr : l.reverse with
    | nil => rfl
    | cons c t =>
      have hlast : l.getLast? = some c := by
        rw [← List.head?_reverse, hr]
        rfl
      rw [List.dropWhile_cons_of_neg (by simp [h2 c hlast])]
  rw [hrev, List.reverse_reverse]

/-- Leading Go whitespace is invisible to `strings.TrimSpace`. -/
theorem trimSpaceL_space_append (ws v : List Char) (hws : ∀ c ∈ ws, isGoSpace c) :
    trimSpaceL (ws ++ v) = trimSpaceL v := by
  unfold trimSpaceL
  rw [List.dropWhile_append_of_pos hws]

/-- A character that is a tab or a space is Go whitespace. -/
theorem tab_space_isGoSpace (c : Char) (h : c = '\t' ∨ c = ' ') : isGoSpace c = true := by
  rcases h with h | h <;> subst h <;> rfl

/-- A character that is not Go whitespace is neither a tab nor a space. -/
theorem not_tab_space_of_not_space (c : Char) (h : isGoSpace c = false) :
    (c == '\t' || c == ' ') = false := by
  by_cases ht : c = '\t'
  · subst ht
    exact absurd h (by simp [isGoSpace])
  · by_cases hs : c = ' '
    · subst hs
      exact absurd h (by simp [isGoSpace])
    · simp [ht, hs]

/-- Claim C7:  Config-file line parsing: each line is trimmed, lines then
empty or starting `#` contribute nothing, and every other line splits into
a key and a value at its first run of tabs/spaces, a line with no tab or
space being a bare key with implicit value `"true"`; concretely,
`"arr\tvalue 2"` parses to `("arr", "value 2")`, `"uh"` to
`("uh", "true")`, and comments, blanks and the testdata file behave as
stated. -/
theorem c7_config_line_parsing :
    (∀ line : String,
      (trimSpaceL line.data = [] ∨ ['#'].isPrefixOf (trimSpaceL line.data)) →
      parseLine line = none) ∧
    (∀ k ws v : List Char,
      k ≠ [] → (∀ c ∈ k, isGoSpace c = false) → k.head? ≠ some '#' →
      ws ≠ [] → (∀ c ∈ ws, c = '\t' ∨ c = ' ') →
      v ≠ [] → (∀ c, v.head? = some c → isGoSpace c = false) →
      (∀ c, v.getLast? = some c → isGoSpace c = false) →
      parseLine (String.mk (k ++ ws ++ v)) = some (String.mk k, String.mk v)) ∧
    parseLine "arr\tvalue 2" = some ("arr", "value 2") ∧
    parseLine "uh" = some ("uh", "true") ∧
    parseLine "# comment" = none ∧
    parseLine "" = none ∧
    buildConfig ["str the str", "arr value 1", "# tabs are ok", "arr\tvalue 2", "", "uh"] =
      [("str", "the str"), ("arr", "value 1"), ("arr", "value 2"), ("uh", "true")] := by
  refine ⟨?_, ?_, by decide, by decide, by decide, by decide, by decide⟩
  · intro line h
    simp only [parseLine]
    rw [if_pos h]
  · intro k ws v hk0 hk hkh hws0 hws hv0 hvh hvl
    cases k with
    | nil => exact absurd rfl hk0
    | cons kc kt =>
    cases ws with
    | nil => exact absurd rfl hws0
    | cons wc wt =>
    have hwsGo : ∀ c ∈ wc :: wt, isGoSpace c := by
      intro c hc
      exact tab_space_isGoSpace c (hws c hc)
    obtain ⟨vl, hvlast⟩ : ∃ c, v.getLast? = some c := by
      cases hv : v.getLast? with
      | none => exact absurd (List.getLast?_eq_none_iff.mp hv) hv0
      | some c => exact ⟨c, rfl⟩
    have hkc : kc ≠ '#' := by simpa using hkh
    have htrim : trimSpaceL ((kc :: kt) ++ (wc :: wt) ++ v) = (kc :: kt) ++ (wc :: wt) ++ v := by
      apply trimSpaceL_eq_self
      · intro c hc
        simp only [List.cons_append, List.head?_cons, Option.some.injEq] at hc
        subst hc
        exact hk kc (by simp)
      · intro c hc
        rw [List.getLast?_append, hvlast] at hc
        rw [show Option.or (some vl) (((kc :: kt) ++ (wc :: wt)).getLast?) = some vl from rfl]
          at hc
        injection hc with hc
        subst hc
        exact hvl vl hvlast
    have hne : (kc :: kt) ++ (wc :: wt) ++ v ≠ [] := by simp
    have hpre : (['#'].isPrefixOf ((kc :: kt) ++ (wc :: wt) ++ v)) = false := by
      simp only [List.cons_append, List.isPrefixOf_cons₂, List.isPrefixOf_nil_left, Bool.and_true]
      exact beq_eq_false_iff_ne.mpr (Ne.symm hkc)
    have hidx : indexTabSpace ((kc :: kt) ++ (wc :: wt) ++ v) = some (kc :: kt).length := by
      unfold indexTabSpace
      rw [List.append_assoc, List.cons_append]
      exact findIdx?_append_first _ (kc :: kt) wc (wt ++ v)
        (fun a ha => not_tab_space_of_not_space a (hk a ha))
        (by rcases hws wc (by simp) with h | h <;> subst h <;> rfl)
    simp only [parseLine]
    rw [htrim]
    rw [if_neg (not_or.mpr ⟨hne, by rw [hpre]; simp⟩)]
    simp only [hidx]
    rw [List.append_assoc, List.take_left, List.drop_left]
    rw [trimSpaceL_space_append (wc :: wt) v hwsGo]
    rw [trimSpaceL_eq_self v hvh hvl]

/-! ## C8 -/

/-- Behavior of `takeWhile` over an all-satisfying block followed by a non-satisfying
head. -/
theorem takeWhile_append_first {α : Type} (p : α → Bool) (l₁ l₂ : List α)
    (h₁ : ∀ a ∈ l₁, p a = true) (h₂ : ∀ c, l₂.head? = some c → p c = false) :
    (l₁ ++ l₂).takeWhile p = l₁ := by
  rw [List.takeWhile_append_of_pos h₁]
  have hnil : l₂.takeWhile p = [] := by
    cases l₂ with
    | nil => rfl
    | cons c t => rw [List.takeWhile_cons_of_neg (by simp [h₂ c rfl])]
  rw [hnil, List.append_nil]

/-- Unfolding `getShellName` at an opening brace. -/
theorem getShellName_open_brace (l : List Char) :
    getShellName ('{' :: l) =
      (match l.findIdx? (fun c => c == '}') with
        | some i => if i = 0 then ([], 2) else (l.take i, i + 2)
        | none => ([], 1)) := rfl

/-- Unfolding `getShellName` at any character other than a brace. -/
theorem getShellName_other (c : Char) (l : List Char) (h : c ≠ '{') :
    getShellName (c :: l) =
      if isShellSpecialVar c then ([c], 1)
      else ((c :: l).takeWhile isAlphaNum, ((c :: l).takeWhile isAlphaNum).length) := by
  unfold getShellName
  split
  · rename_i heq
    simp at heq
  · rename_i x heq
    injection heq with h1 h2
    exact absurd h1 h
  · rename_i x c2 l2 hguard heq
    injection heq with h1 h2
    subst h1
    subst h2
    rfl

/-- Behavior of `getShellName` on a bare alphanumeric name: the whole run is the name,
its length the width. -/
theorem getShellName_simple (name rest : List Char) (c : Char) (cs : List Char)
    (hname : name = c :: cs) (hspec : isShellSpecialVar c = false)
    (halpha : ∀ a ∈ name, isAlphaNum a = true)
    (hrest : ∀ d, rest.head? = some d → isAlphaNum d = false) :
    getShellName (name ++ rest) = (name, name.length) := by
  subst hname
  have hcbrace : c ≠ '{' := by
    intro h
    subst h
    exact absurd (halpha '{' (by simp)) (by decide)
  rw [List.cons_append]
  rw [getShellName_other c (cs ++ rest) hcbrace]
  rw [if_neg (by simp [hspec])]
  rw [← List.cons_append]
  rw [takeWhile_append_first isAlphaNum (c :: cs) rest halpha hrest]

/-- Behavior of `getShellName` on a braced name: everything up to the closing brace
is the name, the width spans both braces. -/
theorem getShellName_braced (name rest : List Char) (hname : name ≠ [])
    (hbrace : ∀ a ∈ name, (a == '}') = false) :
    getShellName ('{' :: (name ++ '}' :: rest)) = (name, name.length + 2) := by
  have hidx : (name ++ '}' :: rest).findIdx? (fun c => c == '}') = some name.length :=
    findIdx?_append_first _ name '}' rest hbrace (by simp)
  rw [getShellName_open_brace, hidx]
  dsimp only
  rw [if_neg (by simpa using hname)]
  rw [List.take_left]

/-- A character other than `$` is copied through `os.Expand` unchanged. -/
theorem expand_nonref (m : String → String) (c : Char) (rest : List Char) (h : c ≠ '$') :
    expandAux m 0 (c :: rest) = c :: expandAux m 0 rest := by
  simp only [expandAux]
  rw [if_neg (fun hh => h hh.1)]

/-- A bare `$NAME` reference is replaced by `m NAME`, and scanning
continues after the name only: the substituted output is not re-expanded. -/
theorem expand_ref_simple (m : String → String) (c : Char) (cs rest : List Char)
    (hspec : isShellSpecialVar c = false)
    (halpha : ∀ a ∈ c :: cs, isAlphaNum a = true)
    (hrest : ∀ d, rest.head? = some d → isAlphaNum d = false) :
    expandAux m 0 ('$' :: ((c :: cs) ++ rest)) =
      (m (String.mk (c :: cs))).data ++ expandAux m 0 rest := by
  have hgsn := getShellName_simple (c :: cs) rest c cs rfl hspec halpha hrest
  have hne : (c :: cs) ++ rest ≠ [] := by simp
  simp only [expandAux]
  rw [if_pos ⟨trivial, hne⟩]
  rw [hgsn]
  dsimp only
  rw [if_neg (by simp), if_neg (by simp)]
  rw [expandAux_skip m ((c :: cs) ++ rest) (c :: cs).length, List.drop_left]

/-- A braced `${NAME}` reference is replaced by `m NAME`, and scanning
continues after the closing brace only. -/
theorem expand_ref_braced (m : String → String) (name rest : List Char) (hname : name ≠ [])
    (hbrace : ∀ a ∈ name, (a == '}') = false) :
    expandAux m 0 ('$' :: '{' :: (name ++ '}' :: rest)) =
      (m (String.mk name)).data ++ expandAux m 0 rest := by
  have hgsn := getShellName_braced name rest hname hbrace
  simp only [expandAux]
  rw [if_pos ⟨trivial, by simp⟩]
  rw [hgsn]
  dsimp only
  rw [if_neg (fun hh => hname hh.1), if_neg hname]
  rw [expandAux_skip m ('{' :: (name ++ '}' :: rest)) (name.length + 2)]
  rw [List.drop_succ_cons]
  have hdrop : (name ++ '}' :: rest).drop (name.length + 1) = rest := by
    rw [show name ++ '}' :: rest = (name ++ ['}']) ++ rest by simp]
    rw [show name.length + 1 = (name ++ ['}']).length by simp]
    exact List.drop_left _ _
  rw [hdrop]

/-- Claim C8:  The value expander replaces every `$NAME`/`${NAME}` reference
with the mapping's value and never re-expands the substituted output
(scanning resumes after the reference); with the mapping both passes use,
an absent name contributes the empty string.  It is applied to each token
split from an environment value and to each config value before the
setter sees them, and to the config path before the file system is
consulted; concretely `$HOME/dir` with `HOME=/x` gives `/x/dir`, and a
value that itself contains a reference is not expanded again. -/
theorem c8_expansion :
    (∀ (m : String → String) (name rest : List Char), name ≠ [] →
      (∀ a ∈ name, (a == '}') = false) →
      expandAux m 0 ('$' :: '{' :: (name ++ '}' :: rest)) =
        (m (String.mk name)).data ++ expandAux m 0 rest) ∧
    (∀ (m : String → String) (c : Char) (cs rest : List Char),
      isShellSpecialVar c = false → (∀ a ∈ c :: cs, isAlphaNum a = true) →
      (∀ d, rest.head? = some d → isAlphaNum d = false) →
      expandAux m 0 ('$' :: ((c :: cs) ++ rest)) =
        (m (String.mk (c :: cs))).data ++ expandAux m 0 rest) ∧
    (∀ (m : String → String) (c : Char) (rest : List Char), c ≠ '$' →
      expandAux m 0 (c :: rest) = c :: expandAux m 0 rest) ∧
    (∀ (envMap : List (String × String)) (name rest : List Char), name ≠ [] →
      (∀ a ∈ name, (a == '}') = false) →
      mapGet envMap (String.mk name) = none →
      expandWith envMap (String.mk ('$' :: '{' :: (name ++ '}' :: rest))) =
        String.mk (expandAux (fun k => (mapGet envMap k).getD "") 0 rest)) ∧
    (∀ (pfx : String) (envMap : List (String × String)) (setNames : List String) (f : Flag),
      f.name ∉ setNames →
      (visitFlagEnv pfx envMap setNames f).1.value =
        f.value ++
          (((splitEscape ((mapGet envMap (envKeyForFlag pfx f.name)).getD "") "," "\\").map
            (expandWith envMap)).filter (fun v => (f.setErr v).isNone))) ∧
    (∀ (expand : String → String) (cfg : List (String × String)) (setNames : List String)
        (f : Flag),
      f.name ∉ setNames →
      (visitFlagConfig expand cfg setNames f).1.value =
        f.value ++ (((configGet cfg f.name).map expand).filter (fun v => (f.setErr v).isNone))) ∧
    (∀ (fs₁ fs₂ : String → OpenResult) (fl : FlagSet) (env : List String) (path : String),
      fs₁ (expandWith (genEnvMap env) path) = fs₂ (expandWith (genEnvMap env) path) →
      parseConfigSet fs₁ fl env path = parseConfigSet fs₂ fl env path) ∧
    expandWith (genEnvMap ["HOME=/x"]) "$HOME/dir" = "/x/dir" ∧
    expandWith (genEnvMap ["A=$B", "B=x"]) "$A" = "$B" := by
  refine ⟨expand_ref_braced, expand_ref_simple, expand_nonref, ?_, ?_, ?_, ?_,
    by decide, by decide⟩
  · intro envMap name rest hname hbrace habsent
    unfold expandWith osExpand
    rw [show (String.mk ('$' :: '{' :: (name ++ '}' :: rest))).data =
      '$' :: '{' :: (name ++ '}' :: rest) from rfl]
    rw [expand_ref_braced _ name rest hname hbrace]
    rw [habsent]
    rfl
  · intro pfx envMap setNames f hmem
    simp only [visitFlagEnv, if_neg hmem]
    rw [applyValues_spec]
  · intro expand cfg setNames f hmem
    simp only [visitFlagConfig, if_neg hmem]
    rw [applyValues_spec]
  · intro fs₁ fs₂ fl env path h
    by_cases hpath : path = ""
    · simp [parseConfigSet, hpath]
    · simp only [parseConfigSet, if_neg hpath]
      rw [h]

/-- Witness for C7: the skip rule on an indented comment line, and the
first-whitespace-run split on the tab-separated testdata line. -/
theorem c7_config_line_parsing_witness :
    parseLine "  # note" = none ∧
    parseLine (String.mk (['a', 'r', 'r'] ++ ['\t'] ++ ['v', 'a', 'l', 'u', 'e', ' ', '2'])) =
      some (String.mk ['a', 'r', 'r'], String.mk ['v', 'a', 'l', 'u', 'e', ' ', '2']) :=
  ⟨c7_config_line_parsing.1 "  # note" (Or.inr (by decide)),
    c7_config_line_parsing.2.1 ['a', 'r', 'r'] ['\t'] ['v', 'a', 'l', 'u', 'e', ' ', '2']
      (by decide) (by decide) (by decide) (by decide) (by decide) (by decide)
      (by
        intro c hc
        injection hc with h
        subst h
        rfl)
      (by
        intro c hc
        rw [show (['v', 'a', 'l', 'u', 'e', ' ', '2'] : List Char).getLast? = some '2'
          from rfl] at hc
        injection hc with h
        subst h
        rfl)⟩

/-- The file system of the C8 witness: `conf` holds one `str` line. -/
def wFs8 : String → OpenResult :=
  fun p => if p == "conf" then .ok ["str confval"] none else .notExist

/-- Witness for C8 at concrete references, tokens, values and paths. -/
theorem c8_expansion_witness :
    expandAux (fun _ => "V") 0 ('$' :: '{' :: (['H'] ++ '}' :: ['x'])) =
      ((fun _ => ("V" : String)) (String.mk ['H'])).data ++ expandAux (fun _ => "V") 0 ['x'] ∧
    expandAux (fun _ => "V") 0 ('$' :: (('H' :: []) ++ ['/'])) =
      ((fun _ => ("V" : String)) (String.mk ('H' :: []))).data ++
        expandAux (fun _ => "V") 0 ['/'] ∧
    expandAux (fun _ => "V") 0 ('a' :: ['b']) = 'a' :: expandAux (fun _ => "V") 0 ['b'] ∧
    mapGet (genEnvMap []) (String.mk ['H']) = none ∧
    expandWith (genEnvMap []) (String.mk ('$' :: '{' :: (['H'] ++ '}' :: ['x']))) =
      String.mk (expandAux (fun k => (mapGet (genEnvMap []) k).getD "") 0 ['x']) ∧
    (visitFlagEnv "my-app" (genEnvMap ["MY_APP_STR=a,b"]) [] strFlag).1.value =
      strFlag.value ++
        (((splitEscape
              ((mapGet (genEnvMap ["MY_APP_STR=a,b"])
                (envKeyForFlag "my-app" strFlag.name)).getD "") "," "\\").map
            (expandWith (genEnvMap ["MY_APP_STR=a,b"]))).filter
          (fun v => (strFlag.setErr v).isNone)) ∧
    (visitFlagConfig (expandWith (genEnvMap [])) (buildConfig ["str confval"]) [] strFlag).1.value =
      strFlag.value ++
        (((configGet (buildConfig ["str confval"]) strFlag.name).map
            (expandWith (genEnvMap []))).filter (fun v => (strFlag.setErr v).isNone)) ∧
    wFs8 (expandWith (genEnvMap []) "conf") = fsConf (expandWith (genEnvMap []) "conf") ∧
    parseConfigSet wFs8 wFl9 [] "conf" = parseConfigSet fsConf wFl9 [] "conf" :=
  ⟨c8_expansion.1 (fun _ => "V") ['H'] ['x'] (by decide) (by decide),
    c8_expansion.2.1 (fun _ => "V") 'H' [] ['/'] (by decide) (by decide)
      (by
        intro d hd
        injection hd with h
        subst h
        rfl),
    c8_expansion.2.2.1 (fun _ => "V") 'a' ['b'] (by decide),
    rfl,
    c8_expansion.2.2.2.1 (genEnvMap []) ['H'] ['x'] (by decide) (by decide) rfl,
    c8_expansion.2.2.2.2.1 "my-app" (genEnvMap ["MY_APP_STR=a,b"]) [] strFlag (by decide),
    c8_expansion.2.2.2.2.2.1 (expandWith (genEnvMap [])) (buildConfig ["str confval"]) []
      strFlag (by decide),
    rfl,
    c8_expansion.2.2.2.2.2.2.1 wFs8 fsConf wFl9 [] "conf" rfl⟩

end Flagconf
